import Mathlib

/-!
Verification of the reference-store and repository core of `dulwich/repo.py`.

Strings are embedded as `List Char` (Python 2 `str` values are byte/char
sequences; all data handled by the claims is ASCII).  Files, dictionaries and
the object store are embedded as association lists or explicit functions;
I/O-level failures (lock contention, permission errors) are outside the model,
matching the code, which re-raises them unchanged.
-/

deriving instance DecidableEq for Except

namespace Dulwich

/-- Python strings, embedded as character lists. -/
abbrev Str := List Char

/-- The `SYMREF` constant, `'ref: '`. -/
def SYMREF : Str := "ref: ".toList

/-- Python substring containment `needle in hay`. -/
def isSubOf (needle : Str) : Str → Bool
  | [] => needle.isEmpty
  | c :: rest => needle.isPrefixOf (c :: rest) || isSubOf needle rest

/-- The per-character test of `check_ref_format`: `ord(c) < 040` (octal 040 = 32)
or membership in the literal `'\177 ~^:?*['`. -/
def forbiddenChar (c : Char) : Bool :=
  c.toNat < 32 || c = '\x7f' || c = ' ' || c = '~' || c = '^' || c = ':' ||
    c = '?' || c = '*' || c = '['

/-- `check_ref_format(refname)` from repo.py: the ref-name grammar, with the
checks listed in the order the source performs them.  (The source's
`refname[-1]` is only reached for non-empty names: the empty name already
failed the `'/' not in refname` test, so the `none` arm of `getLast?` is
unreachable.) -/
def check_ref_format (refname : Str) : Bool :=
  if isSubOf "/.".toList refname || ['.'].isPrefixOf refname then false
  else if !refname.contains '/' then false
  else if isSubOf "..".toList refname then false
  else if refname.any forbiddenChar then false
  else if (match refname.getLast? with
           | some c => c = '/' || c = '.'
           | none => false) then false
  else if ".lock".toList.isSuffixOf refname then false
  else if isSubOf ['@', '\x7b'] refname then false
  else if refname.contains '\\' then false
  else true

/-- 40 identical hex characters, e.g. `"a"*40` in the fixtures. -/
def shaOf (c : Char) : Str := List.replicate 40 c

/-- C8: the ref-name validator rejects `"foo"` (no slash), `"refs/.hidden"`,
`"refs/heads/master.lock"` and `"refs/heads/a..b"`, and accepts
`"refs/heads/master"`. -/
theorem check_ref_format_boundary :
    check_ref_format "foo".toList = false ∧
    check_ref_format "refs/.hidden".toList = false ∧
    check_ref_format "refs/heads/master".toList = true ∧
    check_ref_format "refs/heads/master.lock".toList = false ∧
    check_ref_format "refs/heads/a..b".toList = false := by decide

/-! ## Abstract reference container: `read_ref`, `_check_refname`, `_follow` -/

/-- `RefsContainer.read_ref(refname)`: the loose slot first, the packed table
only when the loose read yields nothing truthy (`if not contents` in the
source is Python truthiness: both `None` and the empty string fall through). -/
def read_ref (loose packed : Str → Option Str) (refname : Str) : Option Str :=
  match loose refname with
  | some c => if c.isEmpty then packed refname else some c
  | none => packed refname

/-- `RefsContainer._check_refname(name)`: `HEAD` literally, or `refs/` followed
by a name the validator accepts.  `true` means the source returns, `false`
means it raises `KeyError`. -/
def _check_refname (name : Str) : Bool :=
  name = "HEAD".toList ||
    ("refs/".toList.isPrefixOf name && check_ref_format (name.drop 5))

/-- The `while contents.startswith(SYMREF)` loop of `RefsContainer._follow`.
The budget counts the truthy reads still allowed before `depth > 5` raises
`KeyError`; the source raises after its sixth truthy read, whether or not that
value is symbolic, so the budget is spent on truthy reads, not on hops.
`none` is the source's `KeyError`. -/
def follow_go (readRef : Str → Option Str) : Nat → Str → Option (Str × Option Str)
  | 0, refname =>
    match readRef refname with
    | none => some (refname, none)
    | some c => if c.isEmpty then some (refname, some c) else none
  | b + 1, refname =>
    match readRef refname with
    | none => some (refname, none)
    | some c =>
      if c.isEmpty then some (refname, some c)
      else if SYMREF.isPrefixOf c then follow_go readRef b (c.drop 5)
      else some (refname, some c)

/-- `RefsContainer._follow(name)`: validate the name, then iterate the
symbolic chain.  The initial `contents = SYMREF + name` makes the first loop
iteration read `name` itself. -/
def _follow (readRef : Str → Option Str) (name : Str) : Option (Str × Option Str) :=
  if _check_refname name then follow_go readRef 5 name else none

/-- `RefsContainer.__getitem__(name)`: `_follow`, then `KeyError` when the
resolved sha is `None`.  Both `KeyError` sources collapse to `none`: an
unresolved name and an over-deep chain are indistinguishable to the caller. -/
def refs_getitem (readRef : Str → Option Str) (name : Str) : Option Str :=
  match _follow readRef name with
  | none => none
  | some (_, none) => none
  | some (_, some sha) => some sha

/-! ## C2: loose/packed precedence of `read_ref` -/

/-- C2 counterexample: a loose ref file that exists with (empty) value `x = ""`
does not win over the packed entry — `if not contents` treats the empty string
like absence, so `read_ref` returns the packed value, not `x`. -/
theorem read_ref_empty_loose_cex :
    (fun _ : Str => some ([] : Str)) "refs/heads/m".toList = some ([] : Str) ∧
    read_ref (fun _ => some []) (fun _ => some (shaOf 'a')) "refs/heads/m".toList
      ≠ some ([] : Str) := by decide

/-- C2 amended: a loose file with a *non-empty* value wins over any packed
entry; when the loose slot is absent or holds the empty string, `read_ref`
falls back to the packed table (and hence reports `none` when the packed table
also lacks the name). -/
theorem read_ref_precedence (loose packed : Str → Option Str) (r x : Str) :
    (loose r = some x → x ≠ [] → read_ref loose packed r = some x) ∧
    (loose r = none ∨ loose r = some [] → read_ref loose packed r = packed r) := by
  constructor
  · intro hl hx
    simp [read_ref, hl, hx]
  · intro hl
    rcases hl with h | h <;> simp [read_ref, h]

/-- Witness for `read_ref_precedence` at a concrete container. -/
theorem read_ref_precedence_witness :
    read_ref (fun _ => some (shaOf 'b')) (fun _ => none) "refs/heads/m".toList
      = some (shaOf 'b') :=
  (read_ref_precedence (fun _ => some (shaOf 'b')) (fun _ => none)
    "refs/heads/m".toList (shaOf 'b')).1 rfl (by decide)

/-! ## C3: bounded symref following -/

/-- On a chain whose first six reads all yield symbolic values — which covers
every cycle and every chain of more than five hops — `follow_go` spends its
whole budget and reports `KeyError` (`none`). -/
theorem follow_go_deep_chain (readRef : Str → Option Str) (f : Nat → Str)
    (hchain : ∀ i, i < 6 → readRef (f i) = some (SYMREF ++ f (i + 1))) :
    ∀ b i, b + i = 5 → follow_go readRef b (f i) = none := by
  intro b
  induction b with
  | zero =>
    intro i hi
    have h5 : i = 5 := by omega
    subst h5
    rw [follow_go, hchain 5 (by omega)]
    simp [SYMREF]
  | succ b ih =>
    intro i hi
    rw [follow_go, hchain i (by omega)]
    have hpre : SYMREF.isPrefixOf (SYMREF ++ f (i + 1)) = true := by
      rw [List.isPrefixOf_iff_prefix]
      exact List.prefix_append _ _
    have hdrop : (SYMREF ++ f (i + 1)).drop 5 = f (i + 1) := by
      have h2 := List.drop_left SYMREF (f (i + 1))
      rw [show SYMREF.length = 5 from rfl] at h2
      exact h2
    simp only [hpre, hdrop, if_true]
    have hne : (SYMREF ++ f (i + 1)).isEmpty = false := by
      simp [SYMREF]
    rw [hne]
    simp only [Bool.false_eq_true, if_false, if_true]
    exact ih (i + 1) (by omega)

/-- C3: a symbolic chain that loops or exceeds five hops makes `_follow`
report `KeyError` (`none`) — the loop terminates within the depth bound (the
model is total by construction) — and the container read surface
`__getitem__` turns this into the same unknown-name report it gives for an
absent ref. -/
theorem follow_deep_chain_unknown (readRef : Str → Option Str) (f : Nat → Str)
    (hname : _check_refname (f 0) = true)
    (hchain : ∀ i, i < 6 → readRef (f i) = some (SYMREF ++ f (i + 1))) :
    _follow readRef (f 0) = none ∧ refs_getitem readRef (f 0) = none := by
  have h := follow_go_deep_chain readRef f hchain 5 0 (by omega)
  constructor
  · rw [_follow, hname]
    simpa using h
  · rw [refs_getitem, _follow, hname]
    simp only [if_true]
    rw [show follow_go readRef 5 (f 0) = none from by simpa using h]

/-- Witness for `follow_deep_chain_unknown`: a self-looping symref. -/
theorem follow_deep_chain_unknown_witness :
    _follow
        (fun r => if r = "refs/heads/loop".toList
                  then some ("ref: refs/heads/loop".toList) else none)
        "refs/heads/loop".toList = none ∧
    refs_getitem
        (fun r => if r = "refs/heads/loop".toList
                  then some ("ref: refs/heads/loop".toList) else none)
        "refs/heads/loop".toList = none :=
  follow_deep_chain_unknown _ (fun _ => "refs/heads/loop".toList)
    (by decide) (by decide)

/-! ## Disk reference container state -/

/-- `dict.get`-style lookup in an association list. -/
def alookup (n : Str) : List (Str × Str) → Option Str
  | [] => none
  | (k, v) :: rest => if k = n then some v else alookup n rest

/-- Store `v` under `n`, replacing an existing binding (a committed
`GitFile` write renames the lock file over the target). -/
def aset (n v : Str) : List (Str × Str) → List (Str × Str)
  | [] => [(n, v)]
  | (k, w) :: rest => if k = n then (n, v) :: rest else (k, w) :: aset n v rest

/-- Delete the binding of `n`, if any. -/
def aremove (n : Str) : List (Str × Str) → List (Str × Str)
  | [] => []
  | (k, v) :: rest => if k = n then rest else (k, v) :: aremove n rest

/-- The observable state of a `DiskRefsContainer`: the loose ref files (name
to raw file contents) and the parsed packed table that `get_packed_refs`
returns (the packed-refs cache is modelled as loaded; the peeled side-table is
not needed by the claims). -/
structure DiskRefs where
  loose : List (Str × Str)
  packed : List (Str × Str)
deriving DecidableEq

/-- The rest of the current line, up to and including a newline, as
`iter(f).next()` yields it after the 5-byte header read. -/
def takeLine : Str → Str
  | [] => []
  | c :: rest => if c = '\n' then [c] else c :: takeLine rest

/-- Python `s.rstrip(chars)`: remove trailing characters drawn from `chars`. -/
def rstripChars (chars : Str) (l : Str) : Str :=
  (l.reverse.dropWhile (fun c => decide (c ∈ chars))).reverse

/-- `DiskRefsContainer.read_loose_ref(name)`: read the first 5 bytes; if they
equal `SYMREF`, return them plus the rest of the first line with CR/LF
stripped; otherwise return the first 40 bytes.  `none` is the `ENOENT` case.
(A file that is exactly the 5-byte prefix makes CPython's `iter(f).next()`
raise `StopIteration`; the model returns the prefix itself — no claim touches
that input.) -/
def read_loose_ref (st : DiskRefs) (name : Str) : Option Str :=
  match alookup name st.loose with
  | none => none
  | some data =>
    if data.take 5 = SYMREF then
      some (data.take 5 ++ rstripChars "\r\n".toList (takeLine (data.drop 5)))
    else
      some (data.take 40)

/-- The inherited `read_ref` as `DiskRefsContainer` runs it. -/
def diskReadRef (st : DiskRefs) (name : Str) : Option Str :=
  read_ref (read_loose_ref st) (fun n => alookup n st.packed) name

/-- The `try: realname, _ = self._follow(name) except KeyError: realname =
name` prologue of `set_if_equals`. -/
def realnameOf (st : DiskRefs) (name : Str) : Str :=
  match _follow (diskReadRef st) name with
  | some (rn, _) => rn
  | none => name

/-- The `orig_ref` reread of `set_if_equals`: the loose value if the file
exists (`is None` test, so an empty file counts), else the packed entry. -/
def origRefOf (st : DiskRefs) (name : Str) : Option Str :=
  match read_loose_ref st name with
  | some c => some c
  | none => alookup name st.packed

/-- `DiskRefsContainer.set_if_equals(name, old_ref, new_ref)`: follow symrefs
to the terminal name; when `old_ref` is given and the current value differs,
abort the lock file and return `False`; otherwise write `new_ref + '\n'` into
the terminal loose slot and return `True`. -/
def set_if_equals (st : DiskRefs) (name : Str) (old_ref : Option Str)
    (new_ref : Str) : Bool × DiskRefs :=
  let realname := realnameOf st name
  match old_ref with
  | some old =>
    if origRefOf st realname ≠ some old then (false, st)
    else (true, { st with loose := aset realname (new_ref ++ ['\n']) st.loose })
  | none => (true, { st with loose := aset realname (new_ref ++ ['\n']) st.loose })

/-- `DiskRefsContainer.__setitem__(name, ref)`: `set_if_equals(name, None,
ref)`, discarding the boolean. -/
def disk_setitem (st : DiskRefs) (name ref : Str) : DiskRefs :=
  (set_if_equals st name none ref).2

/-- `RefsContainer.set_symbolic_ref(name, other)`:
`self[name] = SYMREF + other + '\n'`. -/
def set_symbolic_ref (st : DiskRefs) (name other : Str) : DiskRefs :=
  disk_setitem st name (SYMREF ++ other ++ ['\n'])

/-! ## C1: failed compare-and-swap leaves the store untouched -/

/-- C1: whenever the current value of the terminal ref (loose first, packed
fallback, exactly the reread the source performs under the lock) differs from
the expected `old`, `set_if_equals` returns `False` — a boolean, the model has
no exceptional outcome on this path — and both the loose table and the packed
table are exactly what they were. -/
theorem set_if_equals_cas_failure (st : DiskRefs) (name old new_ref : Str)
    (h : origRefOf st (realnameOf st name) ≠ some old) :
    (set_if_equals st name (some old) new_ref).1 = false ∧
    (set_if_equals st name (some old) new_ref).2.loose = st.loose ∧
    (set_if_equals st name (some old) new_ref).2.packed = st.packed := by
  simp [set_if_equals, h]

/-- Witness for `set_if_equals_cas_failure`: the CAS fixture of the spec,
`refs/heads/m` holding `"a"*40` and an expected value of `"b"*40`. -/
theorem set_if_equals_cas_failure_witness :
    (set_if_equals ⟨[("refs/heads/m".toList, shaOf 'a' ++ ['\n'])], []⟩
        "refs/heads/m".toList (some (shaOf 'b')) (shaOf 'c')).1 = false ∧
    (set_if_equals ⟨[("refs/heads/m".toList, shaOf 'a' ++ ['\n'])], []⟩
        "refs/heads/m".toList (some (shaOf 'b')) (shaOf 'c')).2.loose
      = [("refs/heads/m".toList, shaOf 'a' ++ ['\n'])] ∧
    (set_if_equals ⟨[("refs/heads/m".toList, shaOf 'a' ++ ['\n'])], []⟩
        "refs/heads/m".toList (some (shaOf 'b')) (shaOf 'c')).2.packed = [] :=
  set_if_equals_cas_failure
    ⟨[("refs/heads/m".toList, shaOf 'a' ++ ['\n'])], []⟩
    "refs/heads/m".toList (shaOf 'b') (shaOf 'c') (by decide)

/-! ## C5: `set_symbolic_ref` goes through the symref-following CAS -/

/-- C5 counterexample: with `HEAD` already symbolic to `refs/heads/master`,
`set_symbolic_ref(HEAD, refs/heads/other)` leaves `HEAD` untouched and writes
`'ref: refs/heads/other\n\n'` (note the doubled newline added by
`set_if_equals`) into `refs/heads/master` — the terminal of the chain — so
the write does not land at `name` and its contents are not
`'ref: <target>\n'`. -/
theorem set_symbolic_ref_follows_cex :
    alookup "HEAD".toList
        (set_symbolic_ref ⟨[("HEAD".toList, "ref: refs/heads/master\n".toList)], []⟩
          "HEAD".toList "refs/heads/other".toList).loose
      = some "ref: refs/heads/master\n".toList ∧
    alookup "refs/heads/master".toList
        (set_symbolic_ref ⟨[("HEAD".toList, "ref: refs/heads/master\n".toList)], []⟩
          "HEAD".toList "refs/heads/other".toList).loose
      = some ("ref: refs/heads/other\n\n".toList) := by decide

/-- C5 amended: `set_symbolic_ref(name, target)` unconditionally writes the
symbolic value plus an extra newline — `'ref: <target>\n\n'` — into the loose
slot of the *terminal* of `name`'s existing symref chain (it reaches disk via
`__setitem__` → `set_if_equals`, which follows symrefs on the left-hand
side); the packed table is untouched. -/
theorem set_symbolic_ref_writes_at_terminal (st : DiskRefs) (name other : Str) :
    (set_symbolic_ref st name other).loose
      = aset (realnameOf st name) (SYMREF ++ other ++ ['\n', '\n']) st.loose ∧
    (set_symbolic_ref st name other).packed = st.packed := by
  simp [set_symbolic_ref, disk_setitem, set_if_equals]

/-! ## C9: `BaseRepo.__delitem__` -/

/-- The Python exceptions the ref-deletion path can surface. -/
inductive PyExc where
  | keyError (name : Str)
  | valueError (name : Str)
  | typeError
  | notImplementedError
deriving DecidableEq

/-- The parsed content of an on-disk `packed-refs` file: whether the
`'# pack-refs with: peeled'` header is present, the ref table, and the peeled
annotations (attached to table entries; present only under the header). -/
structure PackedFile where
  peeledHeader : Bool
  table : List (Str × Str)
  peeled : List (Str × Str)
deriving DecidableEq

/-- The `DiskRefsContainer` state the deletion path observes: the loose ref
files, the optional on-disk `packed-refs` file, and the two in-memory caches
`_packed_refs` and `_peeled_refs` — both `None` until a load happens, and
`_peeled_refs` becomes a dict only when a packed file *with* the peeled
header is read. -/
structure DiskRefsC9 where
  loose : List (Str × Str)
  packedFile : Option PackedFile
  packedCache : Option (List (Str × Str))
  peeledCache : Option (List (Str × Str))
deriving DecidableEq

/-- The load in `get_packed_refs` (`self._packed_refs = {}`, then read the
file): a missing file leaves an empty table; a file with the peeled header
replaces `_peeled_refs` with the file's annotations; a file without the
header leaves `_peeled_refs` untouched.  Returns the table and the container
after the load. -/
def reloadPacked (st : DiskRefsC9) : List (Str × Str) × DiskRefsC9 :=
  match st.packedFile with
  | none => ([], { st with packedCache := some [] })
  | some pf =>
    (pf.table,
     { st with
       packedCache := some pf.table,
       peeledCache := if pf.peeledHeader then some pf.peeled else st.peeledCache })

/-- `DiskRefsContainer.get_packed_refs()`: the cached table, loading it on
first access. -/
def get_packed_refs_C9 (st : DiskRefsC9) : List (Str × Str) × DiskRefsC9 :=
  match st.packedCache with
  | some t => (t, st)
  | none => reloadPacked st

/-- The peeled annotations `write_packed_refs` serializes: a `^` line is
emitted only for names present in the table being written. -/
def restrictPeeled (pd table : List (Str × Str)) : List (Str × Str) :=
  pd.filter (fun e => (alookup e.1 table).isSome)

/-- `DiskRefsContainer._remove_packed_ref(name)`.  An unloaded cache returns
at once — the packed entry survives on disk.  Otherwise the cache is reread
from disk under the packed-refs lock; a name absent from the reread table
returns with the lock aborted and the file untouched.  Otherwise the entry is
deleted from the cache and then `if name in self._peeled_refs` raises
`TypeError` when `_peeled_refs` is still `None` (the reread file had no
peeled header and no earlier peeled load happened), leaving the on-disk file
intact; with a peeled dict available the entry is dropped from it and the
file is rewritten without the name — `write_packed_refs` is passed that
(possibly empty) dict, so the rewritten file always carries the peeled
header.  Returns the exception raised, if any, and the container state as the
source leaves it. -/
def _remove_packed_ref (st : DiskRefsC9) (name : Str) :
    Option PyExc × DiskRefsC9 :=
  match st.packedCache with
  | none => (none, st)
  | some _ =>
    let r := reloadPacked st
    if alookup name r.1 = none then (none, r.2)
    else
      let table2 := aremove name r.1
      let st3 := { r.2 with packedCache := some table2 }
      match st3.peeledCache with
      | none => (some .typeError, st3)
      | some pd =>
        let pd2 := aremove name pd
        (none, { st3 with
                 peeledCache := some pd2,
                 packedFile := some ⟨true, table2, restrictPeeled pd2 table2⟩ })

/-- The deletion body of `remove_if_equals`: `os.remove` on the loose path
(tolerating absence), then `_remove_packed_ref`, whose exception propagates
with the loose file already gone (the boolean is meaningless on the
exceptional path). -/
def removeFromBoth (st : DiskRefsC9) (name : Str) :
    Option PyExc × Bool × DiskRefsC9 :=
  let st1 := { st with loose := aremove name st.loose }
  match _remove_packed_ref st1 name with
  | (some e, st2) => (some e, false, st2)
  | (none, st2) => (none, true, st2)

/-- `DiskRefsContainer.remove_if_equals(name, old_ref)`: `_check_refname` may
raise `KeyError`; with `old_ref` given, the current value — loose file first,
packed table otherwise, the latter loading the cache — is compared and a
mismatch returns `False`; otherwise the loose file and then the packed entry
are removed.  Result: the exception raised (if any), the boolean return, and
the final state. -/
def remove_if_equals (st : DiskRefsC9) (name : Str) (old_ref : Option Str) :
    Option PyExc × Bool × DiskRefsC9 :=
  if _check_refname name = false then (some (.keyError name), false, st)
  else
    match old_ref with
    | some old =>
      match read_loose_ref ⟨st.loose, []⟩ name with
      | some c =>
        if c ≠ old then (none, false, st)
        else removeFromBoth st name
      | none =>
        let r := get_packed_refs_C9 st
        if alookup name r.1 ≠ some old then (none, false, r.2)
        else removeFromBoth r.2 name
    | none => removeFromBoth st name

/-- `BaseRepo.__delitem__(name)` over a `DiskRefsContainer`: in the
`startswith("refs") or name == "HEAD"` branch run `del self.refs[name]`
(i.e. `remove_if_equals(name, None)`, whose `KeyError`/`TypeError`
propagates), then fall through to the unconditional `raise ValueError(name)`.
The result is the exception raised paired with the state left behind. -/
def repo_delitem (st : DiskRefsC9) (name : Str) : PyExc × DiskRefsC9 :=
  if "refs".toList.isPrefixOf name || name == "HEAD".toList then
    match remove_if_equals st name none with
    | (some e, _, st2) => (e, st2)
    | (none, _, st2) => (.valueError name, st2)
  else (.valueError name, st)

/-- C9 counterexample: `del repo["refs"]` does *not* raise `ValueError`: the
name enters the refs branch, `_check_refname("refs")` fails (no `refs/`
prefix), and that `KeyError` propagates instead. -/
theorem repo_delitem_keyerror_cex :
    (repo_delitem ⟨[], none, none, none⟩ "refs".toList).1
      = PyExc.keyError "refs".toList ∧
    PyExc.keyError "refs".toList ≠ PyExc.valueError "refs".toList := by decide

/-- C9 amended: no call to `__delitem__` returns normally, but the exception
is not always `ValueError(name)` and the packed entry is not always removed.
Outside the refs branch, `ValueError(name)` with the state untouched; in the
branch, an invalid refname (such as `"refs"` itself) raises `KeyError`;
otherwise the loose file is removed and then: with the packed cache unloaded,
`_remove_packed_ref` is a no-op (the packed entry survives on disk) and
`ValueError(name)` is raised; with the cache loaded, the packed table is
reread from disk, a name that is not packed leaves the file untouched
(`ValueError(name)`), a packed name with no peeled side-table available (the
file lacks the peeled header and none was ever loaded) raises `TypeError`
with the file intact and only the cache pruned, and a packed name with a
peeled dict available is removed from file and caches — the rewrite always
gains the peeled header — before `ValueError(name)` is raised. -/
theorem repo_delitem_behavior (st : DiskRefsC9) (name : Str) :
    (("refs".toList.isPrefixOf name || name == "HEAD".toList) = false →
      repo_delitem st name = (.valueError name, st)) ∧
    (("refs".toList.isPrefixOf name || name == "HEAD".toList) = true →
      _check_refname name = false →
      repo_delitem st name = (.keyError name, st)) ∧
    (("refs".toList.isPrefixOf name || name == "HEAD".toList) = true →
      _check_refname name = true → st.packedCache = none →
      repo_delitem st name
        = (.valueError name, { st with loose := aremove name st.loose })) ∧
    (("refs".toList.isPrefixOf name || name == "HEAD".toList) = true →
      _check_refname name = true → st.packedCache ≠ none →
      st.packedFile = none →
      repo_delitem st name
        = (.valueError name,
           { st with loose := aremove name st.loose,
                     packedCache := some [] })) ∧
    (∀ pf : PackedFile,
      ("refs".toList.isPrefixOf name || name == "HEAD".toList) = true →
      _check_refname name = true → st.packedCache ≠ none →
      st.packedFile = some pf → alookup name pf.table = none →
      repo_delitem st name
        = (.valueError name,
           { st with loose := aremove name st.loose,
                     packedCache := some pf.table,
                     peeledCache := if pf.peeledHeader then some pf.peeled
                                    else st.peeledCache })) ∧
    (∀ pf : PackedFile,
      ("refs".toList.isPrefixOf name || name == "HEAD".toList) = true →
      _check_refname name = true → st.packedCache ≠ none →
      st.packedFile = some pf → alookup name pf.table ≠ none →
      (if pf.peeledHeader then some pf.peeled else st.peeledCache) = none →
      repo_delitem st name
        = (.typeError,
           { st with loose := aremove name st.loose,
                     packedCache := some (aremove name pf.table) })) ∧
    (∀ (pf : PackedFile) (pd : List (Str × Str)),
      ("refs".toList.isPrefixOf name || name == "HEAD".toList) = true →
      _check_refname name = true → st.packedCache ≠ none →
      st.packedFile = some pf → alookup name pf.table ≠ none →
      (if pf.peeledHeader then some pf.peeled else st.peeledCache) = some pd →
      repo_delitem st name
        = (.valueError name,
           ⟨aremove name st.loose,
            some ⟨true, aremove name pf.table,
              restrictPeeled (aremove name pd) (aremove name pf.table)⟩,
            some (aremove name pf.table),
            some (aremove name pd)⟩)) := by
  obtain ⟨lo, pfile, pc, pe⟩ := st
  refine ⟨fun hb => ?_, fun hb hc => ?_, fun hb hc hpc => ?_,
    fun hb hc hpc hpf => ?_, fun pf hb hc hpc hpf halk => ?_,
    fun pf hb hc hpc hpf halk heff => ?_,
    fun pf pd hb hc hpc hpf halk heff => ?_⟩
  · unfold repo_delitem
    rw [if_neg (fun hcond => by rw [hcond] at hb; exact Bool.noConfusion hb)]
  · unfold repo_delitem
    rw [if_pos hb]
    unfold remove_if_equals
    rw [if_pos hc]
  · simp only at hpc
    subst hpc
    unfold repo_delitem
    rw [if_pos hb]
    simp [remove_if_equals, hc, removeFromBoth, _remove_packed_ref]
  · simp only at hpc hpf
    subst hpf
    obtain ⟨t, hpc2⟩ := Option.ne_none_iff_exists'.mp hpc
    subst hpc2
    unfold repo_delitem
    rw [if_pos hb]
    simp [remove_if_equals, hc, removeFromBoth, _remove_packed_ref,
      reloadPacked, alookup]
  · simp only at hpc hpf halk
    subst hpf
    obtain ⟨t, hpc2⟩ := Option.ne_none_iff_exists'.mp hpc
    subst hpc2
    unfold repo_delitem
    rw [if_pos hb]
    simp [remove_if_equals, hc, removeFromBoth, _remove_packed_ref,
      reloadPacked, halk]
  · simp only at hpc hpf halk heff
    subst hpf
    obtain ⟨t, hpc2⟩ := Option.ne_none_iff_exists'.mp hpc
    subst hpc2
    obtain ⟨v, hv⟩ := Option.ne_none_iff_exists'.mp halk
    cases hhd : pf.peeledHeader with
    | true => rw [hhd] at heff; simp at heff
    | false =>
      rw [hhd] at heff
      simp only [if_neg (by simp : ¬(false = true))] at heff
      subst heff
      unfold repo_delitem
      rw [if_pos hb]
      simp [remove_if_equals, hc, removeFromBoth, _remove_packed_ref,
        reloadPacked, hv, hhd]
  · simp only at hpc hpf halk heff
    subst hpf
    obtain ⟨t, hpc2⟩ := Option.ne_none_iff_exists'.mp hpc
    subst hpc2
    obtain ⟨v, hv⟩ := Option.ne_none_iff_exists'.mp halk
    unfold repo_delitem
    rw [if_pos hb]
    simp [remove_if_equals, hc, removeFromBoth, _remove_packed_ref,
      reloadPacked, hv, heff]

/-- Witness for `repo_delitem_behavior`, on its `TypeError` arm: the packed
cache loaded from a no-peel packed-refs file that contains the branch ref —
the delete raises `TypeError`, the on-disk packed entry survives, and only
the loose file and the cache lose the name. -/
theorem repo_delitem_behavior_witness :
    repo_delitem
        ⟨[("refs/heads/m".toList, shaOf 'a' ++ ['\n'])],
         some ⟨false, [("refs/heads/m".toList, shaOf 'a')], []⟩,
         some [("refs/heads/m".toList, shaOf 'a')], none⟩
        "refs/heads/m".toList
      = (.typeError,
         ⟨[], some ⟨false, [("refs/heads/m".toList, shaOf 'a')], []⟩,
          some [], none⟩) :=
  (repo_delitem_behavior
      ⟨[("refs/heads/m".toList, shaOf 'a' ++ ['\n'])],
       some ⟨false, [("refs/heads/m".toList, shaOf 'a')], []⟩,
       some [("refs/heads/m".toList, shaOf 'a')], none⟩
      "refs/heads/m".toList).2.2.2.2.2.1
    ⟨false, [("refs/heads/m".toList, shaOf 'a')], []⟩
    (by decide) (by decide) (by decide) rfl (by decide) (by decide)

/-! ## C10: the in-memory `DictRefsContainer` raises on absent names -/

/-- `DictRefsContainer.read_loose_ref(name)`: a bare `self._refs[name]`,
which raises `KeyError` when the backing mapping lacks the name. -/
def dict_read_loose_ref (m : Str → Option Str) (name : Str) : Except PyExc Str :=
  match m name with
  | some v => .ok v
  | none => .error (.keyError name)

/-- `RefsContainer.read_ref` threaded through loose/packed readers that may
raise, as running the inherited method over `DictRefsContainer` does. -/
def read_ref_exc (loose packed : Str → Except PyExc (Option Str)) (refname : Str) :
    Except PyExc (Option Str) :=
  match loose refname with
  | .error e => .error e
  | .ok (some c) => if c.isEmpty then packed refname else .ok (some c)
  | .ok none => packed refname

/-- `read_ref` as `DictRefsContainer` inherits it: the loose reader is the
raising dict lookup and `get_packed_refs` is the abstract
`NotImplementedError` stub, which `DictRefsContainer` does not override. -/
def dict_read_ref (m : Str → Option Str) (name : Str) : Except PyExc (Option Str) :=
  read_ref_exc
    (fun n => match m n with
              | some v => .ok (some v)
              | none => .error (.keyError n))
    (fun _ => .error .notImplementedError) name

/-- `RefsContainer.__contains__` over the same readers: truthiness of
`read_ref`. -/
def dict_contains (m : Str → Option Str) (name : Str) : Except PyExc Bool :=
  match dict_read_ref m name with
  | .error e => .error e
  | .ok (some c) => .ok (!c.isEmpty)
  | .ok none => .ok false

/-- C10: on a name absent from the backing mapping, `read_loose_ref` raises
`KeyError` instead of returning `None`, so the inherited `read_ref` and
`__contains__` also raise `KeyError` rather than reporting absence —
diverging from the abstract contract under which absent loose refs yield
`None`. -/
theorem dict_absent_raises (m : Str → Option Str) (name : Str)
    (h : m name = none) :
    dict_read_loose_ref m name = .error (.keyError name) ∧
    dict_read_ref m name = .error (.keyError name) ∧
    dict_contains m name = .error (.keyError name) := by
  refine ⟨?_, ?_, ?_⟩ <;>
    simp [dict_read_loose_ref, dict_read_ref, dict_contains, read_ref_exc, h]

/-- Witness for `dict_absent_raises`: the empty mapping. -/
theorem dict_absent_raises_witness :
    dict_read_loose_ref (fun _ => none) "refs/heads/m".toList
      = .error (.keyError "refs/heads/m".toList) ∧
    dict_read_ref (fun _ => none) "refs/heads/m".toList
      = .error (.keyError "refs/heads/m".toList) ∧
    dict_contains (fun _ => none) "refs/heads/m".toList
      = .error (.keyError "refs/heads/m".toList) :=
  dict_absent_raises (fun _ => none) "refs/heads/m".toList rfl

/-! ## C6: `do_commit` and the HEAD update -/

/-- A repository: its refs plus the ids added to the object store.  Commit
serialization and sha computation live in `dulwich.objects` (outside this
source file), so the new commit's id is a parameter. -/
structure RepoState where
  refs : DiskRefs
  store : List Str
deriving DecidableEq

/-- `BaseRepo.do_commit`, reduced to its store/refs effects, with an explicit
interference point between `object_store.add_object(c)` and the ref update —
the two statements the source runs back to back with no lock spanning them.
The HEAD update is `self.refs["HEAD"] = c.id`, i.e. `__setitem__`, i.e.
`set_if_equals("HEAD", None, c.id)`: the middle component records the boolean
that update returns, and the commit id is returned. -/
def do_commit_with (interfere : DiskRefs → DiskRefs) (st : RepoState)
    (cid : Str) : Str × Bool × RepoState :=
  let store2 := st.store ++ [cid]
  let refsMid := interfere st.refs
  let r := set_if_equals refsMid "HEAD".toList none cid
  (cid, r.1, ⟨r.2, store2⟩)

/-- `do_commit` as the source runs it (no interference). -/
def do_commit (st : RepoState) (cid : Str) : Str × Bool × RepoState :=
  do_commit_with id st cid

/-- C6 counterexample: another process moves `HEAD` from `"a"*40` to `"b"*40`
after the commit object is added; the claimed compare-and-swap (expected =
the HEAD current when `do_commit` started) would fail, but the update
*succeeds* and overwrites `HEAD` with the new commit id — the code passes
`old_ref = None`. -/
theorem do_commit_overwrites_cex :
    (do_commit_with
        (fun _ => ⟨[("HEAD".toList, shaOf 'b' ++ ['\n'])], []⟩)
        ⟨⟨[("HEAD".toList, shaOf 'a' ++ ['\n'])], []⟩, []⟩
        (shaOf 'c')).2.1 = true ∧
    alookup "HEAD".toList
        (do_commit_with
          (fun _ => ⟨[("HEAD".toList, shaOf 'b' ++ ['\n'])], []⟩)
          ⟨⟨[("HEAD".toList, shaOf 'a' ++ ['\n'])], []⟩, []⟩
          (shaOf 'c')).2.2.refs.loose = some (shaOf 'c' ++ ['\n']) ∧
    origRefOf ⟨[("HEAD".toList, shaOf 'a' ++ ['\n'])], []⟩ "HEAD".toList
      ≠ origRefOf ⟨[("HEAD".toList, shaOf 'b' ++ ['\n'])], []⟩ "HEAD".toList := by
  decide

/-- C6 amended: `do_commit` adds the commit to the object store and then
updates `HEAD` *unconditionally* — `__setitem__` passes `old_ref = None`, so
the update succeeds whatever value `HEAD` meanwhile holds (any concurrent
change is overwritten, following symrefs to the terminal name) — and returns
the new commit's id. -/
theorem do_commit_unconditional (interfere : DiskRefs → DiskRefs)
    (st : RepoState) (cid : Str) :
    (do_commit_with interfere st cid).1 = cid ∧
    (do_commit_with interfere st cid).2.1 = true ∧
    (do_commit_with interfere st cid).2.2.store = st.store ++ [cid] ∧
    (do_commit_with interfere st cid).2.2.refs.loose
      = aset (realnameOf (interfere st.refs) "HEAD".toList) (cid ++ ['\n'])
          (interfere st.refs).loose := by
  simp [do_commit_with, set_if_equals]

/-! ## C7: `revision_history` -/

/-- A commit as `revision_history` consumes it: id, parent ids and commit
time.  Parsing and the sha computation live in `dulwich.objects`, outside this
source file; the store below holds commits only, so the `NotCommitError`
type check cannot fire in the model. -/
structure CommitObj where
  id : Str
  parents : List Str
  commit_time : Nat
deriving DecidableEq

inductive RevError where
  | missingCommit (sha : Str)
  | outOfFuel
deriving DecidableEq

/-- Object-store lookup by id. -/
def findCommit (store : List CommitObj) (sha : Str) : Option CommitObj :=
  match store with
  | [] => none
  | c :: rest => if c.id = sha then some c else findCommit rest sha

/-- `BaseRepo.__getitem__` for the shas `revision_history` passes: ids of
length 20 or 40 go to the object store; anything else would resolve through
the refs container, which over an empty refs store is the same `KeyError`
that `revision_history` converts to `MissingCommitError`. -/
def repo_getobj (store : List CommitObj) (name : Str) : Option CommitObj :=
  if name.length = 20 ∨ name.length = 40 then findCommit store name else none

/-- The `history.insert(i, commit)` step: insert before the first entry whose
`commit_time` is strictly greater. -/
def insertByTime (c : CommitObj) : List CommitObj → List CommitObj
  | [] => [c]
  | x :: rest =>
    if c.commit_time < x.commit_time then c :: x :: rest
    else x :: insertByTime c rest

/-- The `while pending_commits != []` loop of `revision_history`.  Each
iteration pops the front of the worklist; the fuel bounds the iteration count
(the source terminates because each commit is inserted into `history` at most
once, so only finitely many parents are ever appended). -/
def revision_history_go (store : List CommitObj) :
    Nat → List Str → List CommitObj → Except RevError (List CommitObj)
  | _, [], history => .ok history.reverse
  | 0, _ :: _, _ => .error .outOfFuel
  | fuel + 1, headSha :: pending, history =>
    match repo_getobj store headSha with
    | none => .error (.missingCommit headSha)
    | some commit =>
      if commit ∈ history then revision_history_go store fuel pending history
      else revision_history_go store fuel (pending ++ commit.parents)
             (insertByTime commit history)

/-- An iteration budget large enough for any input: one pop for the seed and
one per parent reference a stored commit can ever enqueue, plus slack. -/
def revHistFuel (store : List CommitObj) : Nat :=
  store.foldr (fun c acc => acc + 1 + c.parents.length) 1

/-- `BaseRepo.revision_history(head)`: worklist seeded with `head`, result
kept ascending by `commit_time`, reversed on exhaustion. -/
def revision_history (store : List CommitObj) (head : Str) :
    Except RevError (List CommitObj) :=
  revision_history_go store (revHistFuel store) [head] []

/-- C7: on the linear chain C1 ← C2 ← C3 with commit times 100, 200, 300,
`revision_history(C3)` returns `[C3, C2, C1]` — newest first, the head first
after the final reversal. -/
theorem revision_history_linear_chain :
    revision_history
        [⟨shaOf 'a', [], 100⟩,
         ⟨shaOf 'b', [shaOf 'a'], 200⟩,
         ⟨shaOf 'c', [shaOf 'b'], 300⟩]
        (shaOf 'c')
      = .ok [⟨shaOf 'c', [shaOf 'b'], 300⟩,
             ⟨shaOf 'b', [shaOf 'a'], 200⟩,
             ⟨shaOf 'a', [], 100⟩] := by decide

/-! ## C4: the packed-refs codec -/

/-- Modelled from the spec: `hex_to_sha` lives in `dulwich.objects`, which is
not part of this source tree; per the spec an ObjectId is displayable as 40
lowercase hex characters, so a hex digit is one of `0123456789abcdef`. -/
def hexChar (c : Char) : Bool := decide (c ∈ "0123456789abcdef".toList)

/-- Modelled from the spec: validity of a 40-character lowercase hex sha, the
check `hex_to_sha` performs on each packed-refs line. -/
def validSha (s : Str) : Bool := s.length = 40 && s.all hexChar

/-- The failure modes of the packed-refs codec: the `PackedRefsException`
variants plus the `IndexError` that `l[0]` on an empty line would raise. -/
inductive PackedRefsError where
  | invalidRefLine (l : Str)
  | invalidHex (s : Str)
  | invalidRefName (n : Str)
  | peeledInUnpeeled
  | unexpectedPeeledLine
  | indexError
deriving DecidableEq

/-- Python `line.split(" ")`: split on every single space. -/
def splitOnChar (sep : Char) : Str → List Str
  | [] => [[]]
  | c :: rest =>
    if c = sep then [] :: splitOnChar sep rest
    else
      match splitOnChar sep rest with
      | [] => [[c]]
      | f :: fs => (c :: f) :: fs

/-- `_split_ref_line(line)`: strip the trailing newline, split on spaces,
require exactly two fields, a valid sha and a valid ref name. -/
def _split_ref_line (line : Str) : Except PackedRefsError (Str × Str) :=
  match splitOnChar ' ' (rstripChars ['\n'] line) with
  | [sha, name] =>
    if validSha sha = false then .error (.invalidHex sha)
    else if check_ref_format name = false then .error (.invalidRefName name)
    else .ok (sha, name)
  | _ => .error (.invalidRefLine line)

/-- `read_packed_refs(f)`: the no-peel parser — comments skipped, any `^`
line is a format error, otherwise each line is split.  The file is a list of
newline-terminated lines, exactly what Python's line iteration yields. -/
def read_packed_refs (lines : List Str) : Except PackedRefsError (List (Str × Str)) :=
  match lines with
  | [] => .ok []
  | l :: rest =>
    match l.head? with
    | none => .error .indexError
    | some c0 =>
      if c0 = '#' then read_packed_refs rest
      else if c0 = '^' then .error .peeledInUnpeeled
      else
        match _split_ref_line l with
        | .error e => .error e
        | .ok e =>
          match read_packed_refs rest with
          | .error e2 => .error e2
          | .ok es => .ok (e :: es)

/-- The loop of `read_packed_refs_with_peeled`, with `last` the buffered
predecessor data line.  The source tests raw `l[0]` for comments, strips
CR/LF, tests `l[0]` again for `^`; `if not last` treats both `None` and the
empty buffer as missing; at end of stream a truthy buffer is flushed with no
peeled value. -/
def rpwp_go : List Str → Option Str → Except PackedRefsError (List (Str × Str × Option Str))
  | [], none => .ok []
  | [], some lastL =>
    if lastL = [] then .ok []
    else
      match _split_ref_line lastL with
      | .error e => .error e
      | .ok e => .ok [(e.1, e.2, none)]
  | l :: rest, last =>
    match l.head? with
    | none => .error .indexError
    | some c0 =>
      if c0 = '#' then rpwp_go rest last
      else
        let ls := rstripChars ['\r', '\n'] l
        match ls.head? with
        | none => .error .indexError
        | some d0 =>
          if d0 = '^' then
            match last with
            | none => .error .unexpectedPeeledLine
            | some lastL =>
              if lastL = [] then .error .unexpectedPeeledLine
              else if validSha (ls.drop 1) = false then .error (.invalidHex (ls.drop 1))
              else
                match _split_ref_line lastL with
                | .error e => .error e
                | .ok e =>
                  match rpwp_go rest none with
                  | .error e2 => .error e2
                  | .ok es => .ok ((e.1, e.2, some (ls.drop 1)) :: es)
          else
            match last with
            | none => rpwp_go rest (some ls)
            | some lastL =>
              if lastL = [] then rpwp_go rest (some ls)
              else
                match _split_ref_line lastL with
                | .error e => .error e
                | .ok e =>
                  match rpwp_go rest (some ls) with
                  | .error e2 => .error e2
                  | .ok es => .ok ((e.1, e.2, none) :: es)

/-- `read_packed_refs_with_peeled(f)`: the header line has already been
consumed, so the stream starts at the second line and the buffer is empty. -/
def read_packed_refs_with_peeled (lines : List Str) :
    Except PackedRefsError (List (Str × Str × Option Str)) :=
  rpwp_go lines none

/-- Python string `<` on ASCII byte strings: lexicographic by character. -/
def lexLe : Str → Str → Bool
  | [], _ => true
  | _ :: _, [] => false
  | a :: xs, b :: ys => if a = b then lexLe xs ys else decide (a < b)

/-- The `sorted(packed_refs.iterkeys())` order on table entries
(`(name, sha)` pairs ordered by name). -/
def nameLe (a b : Str × Str) : Prop := lexLe a.1 b.1 = true

instance : DecidableRel nameLe := fun a b => instDecidableEqBool (lexLe a.1 b.1) true

/-- The lines `write_packed_refs` emits for one `(name, sha)` entry:
`'%s %s\n' % (sha, name)` and, when the peeled dict holds the name,
`'^%s\n' % peeled`. -/
def entryLines (peeled : Option (Str → Option Str)) (e : Str × Str) : List Str :=
  (e.2 ++ ' ' :: e.1 ++ ['\n']) ::
    (match peeled with
     | some P =>
       match P e.1 with
       | some p => [('^' :: p) ++ ['\n']]
       | none => []
     | none => [])

/-- Concatenation of the entry lines over a table. -/
def linesFor (peeled : Option (Str → Option Str)) : List (Str × Str) → List Str
  | [] => []
  | e :: rest => entryLines peeled e ++ linesFor peeled rest

/-- `write_packed_refs(f, packed_refs, peeled_refs)`: the
`'# pack-refs with: peeled'` header iff a peeled dict was supplied, then the
entries in ascending name order.  The table is an association list (the
dict's items); the peeled dict is a partial map over names. -/
def write_packed_refs (packed : List (Str × Str))
    (peeled : Option (Str → Option Str)) : List Str :=
  (match peeled with
   | none => []
   | some _ => ["# pack-refs with: peeled\n".toList]) ++
    linesFor peeled (List.insertionSort nameLe packed)

/-! ### String lemmas for the codec proof -/

theorem dropWhile_eq_self_of_false {p : Char → Bool} :
    ∀ l : Str, (∀ c ∈ l, p c = false) → l.dropWhile p = l := by
  intro l h
  cases l with
  | nil => rfl
  | cons c rest =>
    rw [List.dropWhile_cons, h c (by simp)]
    simp

theorem rstrip_no_chars (chars l : Str) (h : ∀ c ∈ l, c ∉ chars) :
    rstripChars chars l = l := by
  unfold rstripChars
  rw [dropWhile_eq_self_of_false]
  · exact List.reverse_reverse l
  · intro c hc
    exact decide_eq_false (h c (List.mem_reverse.mp hc))

theorem rstrip_last (chars l : Str) (x : Char) (hx : x ∈ chars)
    (h : ∀ c ∈ l, c ∉ chars) :
    rstripChars chars (l ++ [x]) = l := by
  unfold rstripChars
  rw [List.reverse_append]
  simp only [List.reverse_cons, List.reverse_nil, List.nil_append,
    List.singleton_append, List.dropWhile_cons]
  rw [decide_eq_true hx]
  simp only [if_true]
  rw [dropWhile_eq_self_of_false]
  · exact List.reverse_reverse l
  · intro c hc
    exact decide_eq_false (h c (List.mem_reverse.mp hc))

theorem splitOnChar_no_sep (sep : Char) :
    ∀ l : Str, (∀ c ∈ l, c ≠ sep) → splitOnChar sep l = [l] := by
  intro l
  induction l with
  | nil => intro _; rfl
  | cons c rest ih =>
    intro h
    rw [splitOnChar, if_neg (h c (by simp)), ih (fun d hd => h d (by simp [hd]))]

theorem splitOnChar_append (sep : Char) (l r : Str) (h : ∀ c ∈ l, c ≠ sep) :
    splitOnChar sep (l ++ sep :: r) = l :: splitOnChar sep r := by
  induction l with
  | nil =>
    rw [List.nil_append, splitOnChar, if_pos rfl]
  | cons c rest ih =>
    rw [List.cons_append, splitOnChar, if_neg (h c (by simp)),
      ih (fun d hd => h d (by simp [hd]))]

theorem hexChar_spec (c : Char) (h : hexChar c = true) :
    c ≠ '#' ∧ c ≠ '^' ∧ c ≠ ' ' ∧ c ≠ '\n' ∧ c ≠ '\r' := by
  unfold hexChar at h
  have hm : c ∈ "0123456789abcdef".toList := of_decide_eq_true h
  fin_cases hm <;> decide

theorem validSha_facts (s : Str) (h : validSha s = true) :
    s ≠ [] ∧ ∀ c ∈ s, hexChar c = true := by
  unfold validSha at h
  rw [Bool.and_eq_true] at h
  obtain ⟨h1, h2⟩ := h
  have hlen : s.length = 40 := of_decide_eq_true h1
  constructor
  · intro e
    rw [e] at hlen
    simp at hlen
  · exact fun c hc => List.all_eq_true.mp h2 c hc

theorem forbiddenChar_spec (c : Char) (h : forbiddenChar c = false) :
    c ≠ ' ' ∧ c ≠ '\n' ∧ c ≠ '\r' := by
  refine ⟨fun e => ?_, fun e => ?_, fun e => ?_⟩ <;>
    (subst e; revert h; decide)

theorem check_ref_format_facts (n : Str) (h : check_ref_format n = true) :
    n ≠ [] ∧ ∀ c ∈ n, forbiddenChar c = false := by
  unfold check_ref_format at h
  split_ifs at h with h1 h2 h3 h4
  constructor
  · intro e
    subst e
    exact h2 (by decide)
  · intro c hc
    by_contra hf
    have hf2 : forbiddenChar c = true := by
      revert hf
      cases forbiddenChar c <;> simp
    exact h4 (List.any_eq_true.mpr ⟨c, hc, hf2⟩)

/-! ### Line-level lemmas -/

theorem entry_line_chars (s n : Str) (hs : validSha s = true)
    (hn : check_ref_format n = true) :
    ∀ c ∈ s ++ ' ' :: n, c ≠ '\n' ∧ c ≠ '\r' := by
  intro c hc
  rcases List.mem_append.mp hc with h | h
  · have h2 := hexChar_spec c ((validSha_facts s hs).2 c h)
    exact ⟨h2.2.2.2.1, h2.2.2.2.2⟩
  · rcases List.mem_cons.mp h with h1 | h1
    · subst h1
      exact ⟨by decide, by decide⟩
    · have h2 := forbiddenChar_spec c ((check_ref_format_facts n hn).2 c h1)
      exact ⟨h2.2.1, h2.2.2⟩

theorem entry_line_shape (s n : Str) :
    s ++ ' ' :: n ++ ['\n'] = (s ++ ' ' :: n) ++ ['\n'] := by
  simp

theorem split_ref_fields (s n : Str) (hs : validSha s = true)
    (hn : check_ref_format n = true) :
    splitOnChar ' ' (s ++ ' ' :: n) = [s, n] := by
  rw [splitOnChar_append ' ' s n
      (fun c hc => (hexChar_spec c ((validSha_facts s hs).2 c hc)).2.2.1),
    splitOnChar_no_sep ' ' n
      (fun c hc => (forbiddenChar_spec c ((check_ref_format_facts n hn).2 c hc)).1)]

theorem split_ref_line_ok (s n : Str) (hs : validSha s = true)
    (hn : check_ref_format n = true) :
    _split_ref_line (s ++ ' ' :: n) = .ok (s, n) := by
  unfold _split_ref_line
  rw [rstrip_no_chars ['\n'] (s ++ ' ' :: n)
      (fun c hc => by simpa using (entry_line_chars s n hs hn c hc).1),
    split_ref_fields s n hs hn]
  simp [hs, hn]

theorem split_ref_line_nl_ok (s n : Str) (hs : validSha s = true)
    (hn : check_ref_format n = true) :
    _split_ref_line (s ++ ' ' :: n ++ ['\n']) = .ok (s, n) := by
  unfold _split_ref_line
  rw [entry_line_shape,
    rstrip_last ['\n'] (s ++ ' ' :: n) '\n' (by simp)
      (fun c hc => by simpa using (entry_line_chars s n hs hn c hc).1),
    split_ref_fields s n hs hn]
  simp [hs, hn]

theorem rstrip_data_line (s n : Str) (hs : validSha s = true)
    (hn : check_ref_format n = true) :
    rstripChars ['\r', '\n'] (s ++ ' ' :: n ++ ['\n']) = s ++ ' ' :: n := by
  rw [entry_line_shape]
  exact rstrip_last ['\r', '\n'] (s ++ ' ' :: n) '\n' (by simp)
    (fun c hc => by
      have h2 := entry_line_chars s n hs hn c hc
      simp [h2.1, h2.2])

theorem data_line_head (s n : Str) (c : Char) (s2 : Str) (hsh : s = c :: s2) :
    (s ++ ' ' :: n ++ ['\n']).head? = some c := by
  subst hsh
  rfl

/-! ### Parser step lemmas -/

theorem read_packed_refs_step (s n : Str) (rest : List Str)
    (hs : validSha s = true) (hn : check_ref_format n = true) :
    read_packed_refs ((s ++ ' ' :: n ++ ['\n']) :: rest)
      = match read_packed_refs rest with
        | .error e2 => .error e2
        | .ok es => .ok ((s, n) :: es) := by
  obtain ⟨hs0, hsall⟩ := validSha_facts s hs
  cases hsh : s with
  | nil => exact absurd hsh hs0
  | cons c s2 =>
    subst hsh
    have hc := hexChar_spec c (hsall c (by simp))
    rw [read_packed_refs, split_ref_line_nl_ok (c :: s2) n hs hn]
    simp only [List.cons_append, List.head?_cons]
    rw [if_neg hc.1, if_neg hc.2.1]

theorem read_packed_refs_linesFor (T : List (Str × Str))
    (hT : ∀ e ∈ T, check_ref_format e.1 = true ∧ validSha e.2 = true) :
    read_packed_refs (linesFor none T) = .ok (T.map fun e => (e.2, e.1)) := by
  induction T with
  | nil => rfl
  | cons e rest ih =>
    obtain ⟨nm, sh⟩ := e
    obtain ⟨hn, hs⟩ := hT (nm, sh) (by simp)
    have ih2 := ih fun x hx => hT x (by simp [hx])
    simp only [linesFor, entryLines, List.singleton_append]
    rw [read_packed_refs_step sh nm _ hs hn, ih2]
    rfl

theorem rpwp_data_step (s n : Str) (rest : List Str) (last : Option Str)
    (hs : validSha s = true) (hn : check_ref_format n = true) :
    rpwp_go ((s ++ ' ' :: n ++ ['\n']) :: rest) last
      = match last with
        | none => rpwp_go rest (some (s ++ ' ' :: n))
        | some lastL =>
          if lastL = [] then rpwp_go rest (some (s ++ ' ' :: n))
          else
            match _split_ref_line lastL with
            | .error e => .error e
            | .ok e =>
              match rpwp_go rest (some (s ++ ' ' :: n)) with
              | .error e2 => .error e2
              | .ok es => .ok ((e.1, e.2, none) :: es) := by
  obtain ⟨hs0, hsall⟩ := validSha_facts s hs
  cases hsh : s with
  | nil => exact absurd hsh hs0
  | cons c s2 =>
    subst hsh
    have hc := hexChar_spec c (hsall c (by simp))
    rw [rpwp_go, rstrip_data_line (c :: s2) n hs hn]
    simp only [List.cons_append, List.head?_cons]
    rw [if_neg hc.1, if_neg hc.2.1]

theorem rpwp_data_step_none (s n : Str) (rest : List Str)
    (hs : validSha s = true) (hn : check_ref_format n = true) :
    rpwp_go ((s ++ ' ' :: n ++ ['\n']) :: rest) none
      = rpwp_go rest (some (s ++ ' ' :: n)) := by
  rw [rpwp_data_step s n rest none hs hn]

theorem rpwp_data_step_buf (s n : Str) (rest : List Str) (lastL : Str)
    (hs : validSha s = true) (hn : check_ref_format n = true) :
    rpwp_go ((s ++ ' ' :: n ++ ['\n']) :: rest) (some lastL)
      = if lastL = [] then rpwp_go rest (some (s ++ ' ' :: n))
        else
          match _split_ref_line lastL with
          | .error e => .error e
          | .ok e =>
            match rpwp_go rest (some (s ++ ' ' :: n)) with
            | .error e2 => .error e2
            | .ok es => .ok ((e.1, e.2, none) :: es) := by
  rw [rpwp_data_step s n rest (some lastL) hs hn]

theorem rpwp_peel_step (p : Str) (rest : List Str) (lastL : Str)
    (hp : validSha p = true) :
    rpwp_go ((('^' :: p) ++ ['\n']) :: rest) (some lastL)
      = if lastL = [] then .error .unexpectedPeeledLine
        else
          match _split_ref_line lastL with
          | .error e => .error e
          | .ok e =>
            match rpwp_go rest none with
            | .error e2 => .error e2
            | .ok es => .ok ((e.1, e.2, some p) :: es) := by
  have hstrip : rstripChars ['\r', '\n'] (('^' :: p) ++ ['\n']) = '^' :: p :=
    rstrip_last ['\r', '\n'] ('^' :: p) '\n' (by simp)
      (fun c hc => by
        rcases List.mem_cons.mp hc with h1 | h1
        · subst h1; decide
        · have h2 := hexChar_spec c ((validSha_facts p hp).2 c h1)
          simp [h2.2.2.2.1, h2.2.2.2.2])
  rw [rpwp_go, hstrip]
  simp only [List.cons_append, List.head?_cons, List.drop_succ_cons,
    List.drop_zero]
  rw [if_pos trivial, if_neg (by simp [hp] : ¬(validSha p = false)),
    if_neg (by decide : ¬('^' = '#'))]

theorem rpwp_end_flush (s n : Str) (hs : validSha s = true)
    (hn : check_ref_format n = true) :
    rpwp_go [] (some (s ++ ' ' :: n)) = .ok [(s, n, none)] := by
  rw [rpwp_go]
  rw [if_neg (by simp : ¬(s ++ ' ' :: n = []))]
  rw [split_ref_line_ok s n hs hn]

/-- Parsing the entry lines of a table whose names and shas are valid yields
exactly the table's entries with their peeled values, whether the buffer is
empty or holds a pending (valid) data line. -/
theorem rpwp_linesFor (P : Str → Option Str) (T : List (Str × Str))
    (hT : ∀ e ∈ T, check_ref_format e.1 = true ∧ validSha e.2 = true)
    (hP : ∀ nm q, P nm = some q → validSha q = true) :
    rpwp_go (linesFor (some P) T) none
        = .ok (T.map fun e => (e.2, e.1, P e.1)) ∧
    ∀ s n, validSha s = true → check_ref_format n = true →
      rpwp_go (linesFor (some P) T) (some (s ++ ' ' :: n))
        = .ok ((s, n, none) :: T.map fun e => (e.2, e.1, P e.1)) := by
  induction T with
  | nil =>
    exact ⟨rfl, fun s n hs hn => rpwp_end_flush s n hs hn⟩
  | cons e rest ih =>
    obtain ⟨nm, sh⟩ := e
    obtain ⟨hn1, hs1⟩ := hT (nm, sh) (by simp)
    obtain ⟨ih1, ih2⟩ := ih fun x hx => hT x (by simp [hx])
    cases hpn : P nm with
    | none =>
      have hlines : linesFor (some P) ((nm, sh) :: rest)
          = (sh ++ ' ' :: nm ++ ['\n']) :: linesFor (some P) rest := by
        simp [linesFor, entryLines, hpn]
      constructor
      · rw [hlines, rpwp_data_step_none sh nm _ hs1 hn1, ih2 sh nm hs1 hn1]
        simp [hpn]
      · intro s n hs hn
        rw [hlines, rpwp_data_step_buf sh nm _ (s ++ ' ' :: n) hs1 hn1]
        rw [if_neg (by simp : ¬(s ++ ' ' :: n = []))]
        rw [split_ref_line_ok s n hs hn, ih2 sh nm hs1 hn1]
        simp [hpn]
    | some p =>
      have hp : validSha p = true := hP nm p hpn
      have hlines : linesFor (some P) ((nm, sh) :: rest)
          = (sh ++ ' ' :: nm ++ ['\n']) :: (('^' :: p) ++ ['\n'])
              :: linesFor (some P) rest := by
        simp [linesFor, entryLines, hpn]
      have hafter : rpwp_go ((('^' :: p) ++ ['\n']) :: linesFor (some P) rest)
          (some (sh ++ ' ' :: nm)) = .ok ((sh, nm, some p) ::
            rest.map fun e => (e.2, e.1, P e.1)) := by
        rw [rpwp_peel_step p _ _ hp,
          if_neg (by simp : ¬(sh ++ ' ' :: nm = [])),
          split_ref_line_ok sh nm hs1 hn1, ih1]
      constructor
      · rw [hlines, rpwp_data_step_none sh nm _ hs1 hn1, hafter]
        simp [hpn]
      · intro s n hs hn
        rw [hlines, rpwp_data_step_buf sh nm _ (s ++ ' ' :: n) hs1 hn1]
        rw [if_neg (by simp : ¬(s ++ ' ' :: n = []))]
        rw [split_ref_line_ok s n hs hn, hafter]
        simp [hpn]

/-- C4: packed-refs round-trip.  A packed table is a list of
`(name, sha)` entries with valid names and valid 40-hex shas, given in the
ascending name order in which `sorted(packed_refs.iterkeys())` iterates the
dict; the peeled map `P` assigns (valid) peeled shas to some names.  Parsing
`write_packed_refs`' output after the header line with
`read_packed_refs_with_peeled` yields exactly the entries of `T` with their
peeled values from `P`; with no peeled map there is no header and
`read_packed_refs` recovers exactly `T`. -/
theorem packed_refs_roundtrip (T : List (Str × Str)) (P : Str → Option Str)
    (hT : ∀ e ∈ T, check_ref_format e.1 = true ∧ validSha e.2 = true)
    (hP : ∀ nm q, P nm = some q → validSha q = true)
    (hsorted : List.Sorted nameLe T) :
    read_packed_refs_with_peeled ((write_packed_refs T (some P)).drop 1)
        = .ok (T.map fun e => (e.2, e.1, P e.1)) ∧
    read_packed_refs (write_packed_refs T none)
        = .ok (T.map fun e => (e.2, e.1)) := by
  have hss : List.insertionSort nameLe T = T := hsorted.insertionSort_eq
  constructor
  · unfold read_packed_refs_with_peeled write_packed_refs
    rw [hss]
    simp only [List.singleton_append, List.drop_succ_cons, List.drop_zero]
    exact (rpwp_linesFor P T hT hP).1
  · unfold write_packed_refs
    rw [hss]
    simp only [List.nil_append]
    exact read_packed_refs_linesFor T hT

/-- Witness for `packed_refs_roundtrip`: a two-entry table in ascending name
order, with a peeled value on the tag entry, mirroring the spec's
packed-refs-parsing fixture. -/
theorem packed_refs_roundtrip_witness :
    read_packed_refs_with_peeled
        ((write_packed_refs
            [("refs/heads/x".toList, shaOf 'c'), ("refs/tags/v1".toList, shaOf 'a')]
            (some fun nm => if nm = "refs/tags/v1".toList
                            then some (shaOf 'b') else none)).drop 1)
      = .ok ([("refs/heads/x".toList, shaOf 'c'), ("refs/tags/v1".toList, shaOf 'a')].map
          fun e => (e.2, e.1,
            (fun nm => if nm = "refs/tags/v1".toList
                       then some (shaOf 'b') else none) e.1)) ∧
    read_packed_refs
        (write_packed_refs
          [("refs/heads/x".toList, shaOf 'c'), ("refs/tags/v1".toList, shaOf 'a')]
          none)
      = .ok ([("refs/heads/x".toList, shaOf 'c'), ("refs/tags/v1".toList, shaOf 'a')].map
          fun e => (e.2, e.1)) :=
  packed_refs_roundtrip
    [("refs/heads/x".toList, shaOf 'c'), ("refs/tags/v1".toList, shaOf 'a')]
    (fun nm => if nm = "refs/tags/v1".toList then some (shaOf 'b') else none)
    (by decide)
    (fun nm q hq => by
      by_cases h : nm = "refs/tags/v1".toList
      · subst h
        have hq2 : (if ("refs/tags/v1".toList : Str) = "refs/tags/v1".toList
            then some (shaOf 'b') else none) = some q := hq
        rw [if_pos rfl] at hq2
        cases hq2
        decide
      · have hq2 : (if nm = "refs/tags/v1".toList
            then some (shaOf 'b') else none) = some q := hq
        rw [if_neg h] at hq2
        cases hq2)
    (by decide)

end Dulwich
